import Mathlib

/-!
Verification of the audio binary-format layer of the repository: the
`audioop` compatibility module (raw PCM sample operations) and the `aifc`
compatibility module (chunk-based container reader/writer).

Byte buffers are modelled as `List Nat` whose elements are byte values
(0 ≤ b < 256 wherever a theorem needs it); samples are `Int`.  Python's
exact integer arithmetic maps to `Int`/`Nat`; the handful of places where
the source computes with Python floats (gain mixing, rate conversion,
width rescaling) are modelled over `ℚ`, which agrees with the float
computation wherever the float arithmetic is exact (products of samples
with dyadic gains below 2^53); `int(x)` is truncation toward zero.
-/

set_option maxHeartbeats 1000000

namespace Audioop

/-- Errors raised by the audioop compatibility module.  `unsupportedWidth`
and `formatError` are the two messages of the module's own `error`
exception class; the remaining constructors stand for builtin Python
exceptions that some code paths raise (struct.error from short buffers,
KeyError from the width-to-format dict lookup in `tomono`, ValueError from
a zero `range` step, ZeroDivisionError from `% 0` or `/ 0`), which are not
instances of the module's `error`. -/
inductive AErr where
  | unsupportedWidth (width : Nat)
  | formatError
  | structError
  | keyError
  | valueError
  | zeroDivisionError
deriving DecidableEq

instance {ε α : Type} [DecidableEq ε] [DecidableEq α] : DecidableEq (Except ε α) :=
  fun a b =>
    match a, b with
    | .ok x, .ok y =>
      if h : x = y then .isTrue (by rw [h]) else .isFalse (by intro hc; cases hc; exact h rfl)
    | .error x, .error y =>
      if h : x = y then .isTrue (by rw [h]) else .isFalse (by intro hc; cases hc; exact h rfl)
    | .ok _, .error _ => .isFalse (by intro hc; cases hc)
    | .error _, .ok _ => .isFalse (by intro hc; cases hc)

/-- Two little-endian bytes decoded as a signed 16-bit integer
(struct.unpack, format item h with byte order mark <). -/
def decodeS16 (b0 b1 : Nat) : Int :=
  let u := b0 + 256 * b1
  if u < 32768 then (u : Int) else (u : Int) - 65536

/-- Four little-endian bytes decoded as a signed 32-bit integer
(struct.unpack, format item i with byte order mark <). -/
def decodeS32 (b0 b1 b2 b3 : Nat) : Int :=
  let u := b0 + 256 * b1 + 65536 * b2 + 16777216 * b3
  if u < 2147483648 then (u : Int) else (u : Int) - 4294967296

/-- Decode a byte list two bytes at a time as signed 16-bit integers. -/
def decodeS16List : List Nat → List Int
  | b0 :: b1 :: rest => decodeS16 b0 b1 :: decodeS16List rest
  | _ => []

/-- Decode a byte list four bytes at a time as signed 32-bit integers. -/
def decodeS32List : List Nat → List Int
  | b0 :: b1 :: b2 :: b3 :: rest => decodeS32 b0 b1 b2 b3 :: decodeS32List rest
  | _ => []

/-- `_get_samples(data, width)`: width 1 yields the raw unsigned bytes,
widths 2 and 4 decode little-endian signed integers, any other width
raises the module error with the unsupported-width message.  struct.unpack
demands that the buffer length equal the format size, so a buffer whose
length is not a multiple of the width raises struct.error. -/
def get_samples (data : List Nat) (width : Nat) : Except AErr (List Int) :=
  if width = 1 then .ok (data.map (fun b => (b : Int)))
  else if width = 2 then
    if data.length % 2 = 0 then .ok (decodeS16List data) else .error .structError
  else if width = 4 then
    if data.length % 4 = 0 then .ok (decodeS32List data) else .error .structError
  else .error (.unsupportedWidth width)

/-- struct.pack of format <h for an in-range signed value: two
little-endian bytes of the value's 16-bit two's complement. -/
def packS16 (s : Int) : List Nat :=
  let u := (s % 65536).toNat
  [u % 256, u / 256]

/-- struct.pack of format <i for an in-range signed value: four
little-endian bytes of the value's 32-bit two's complement. -/
def packS32 (s : Int) : List Nat :=
  let u := (s % 4294967296).toNat
  [u % 256, u / 256 % 256, u / 65536 % 256, u / 16777216 % 256]

/-- The width-1 encoding step of `_samples_to_bytes`: re-bias by +128,
clamp to [0,255], pack as one unsigned byte. -/
def encodeU8 (s : Int) : List Nat := [(max 0 (min 255 (s + 128))).toNat]

/-- The width-2 encoding step of `_samples_to_bytes`: clamp to the signed
16-bit range, pack little-endian. -/
def encodeS16 (s : Int) : List Nat := packS16 (max (-32768) (min 32767 s))

/-- The width-4 encoding step of `_samples_to_bytes`: clamp to the signed
32-bit range, pack little-endian. -/
def encodeS32 (s : Int) : List Nat := packS32 (max (-2147483648) (min 2147483647 s))

/-- Concatenation of the images of a list-valued function, used to build
the packed byte output of `_samples_to_bytes`. -/
def concatMap (f : α → List β) : List α → List β
  | [] => []
  | x :: xs => f x ++ concatMap f xs

/-- `_samples_to_bytes(samples, width)`: clamp every sample into the
representable range of the width (saturation, with the +128 re-bias for
width 1) and pack little-endian; any other width raises the module error
with the unsupported-width message. -/
def samples_to_bytes (samples : List Int) (width : Nat) : Except AErr (List Nat) :=
  if width = 1 then .ok (concatMap encodeU8 samples)
  else if width = 2 then .ok (concatMap encodeS16 samples)
  else if width = 4 then .ok (concatMap encodeS32 samples)
  else .error (.unsupportedWidth width)

/-- Python `int(q)` on an exact value: truncation toward zero. -/
def ratTrunc (q : ℚ) : Int := Int.tdiv q.num (q.den : Int)

/-- Python `round(q)` on an exact value: round half to even. -/
def pyRound (q : ℚ) : Int :=
  let f := Rat.floor q
  let r := q - (f : ℚ)
  if r < 1 / 2 then f
  else if 1 / 2 < r then f + 1
  else if f % 2 = 0 then f else f + 1

/-- `rms(data, width)`: 0 on an empty buffer (before any width check),
otherwise the integer square root of the mean of the squares of the
sign-corrected samples.  The source computes the square root with float
arithmetic; the integer square root of the floored mean used here agrees
with `int((sum/len) ** 0.5)` up to float rounding, and the error and
empty-buffer paths, which the claims are about, are exact. -/
def rms (data : List Nat) (width : Nat) : Except AErr Int :=
  if data.length = 0 then .ok 0
  else do
    let s0 ← get_samples data width
    let s := if width = 1 then s0.map (fun x => x - 128) else s0
    let sumsq := (s.map (fun x => x * x)).sum
    .ok (Int.ofNat (Nat.sqrt (sumsq.toNat / s.length)))

/-- `add(data1, data2, width)`: trim both buffers to the shorter length,
decode, sign-correct width-1 samples, add pointwise, re-encode with
saturation. -/
def add (data1 data2 : List Nat) (width : Nat) : Except AErr (List Nat) := do
  let m := min data1.length data2.length
  let s1x ← get_samples (data1.take m) width
  let s2x ← get_samples (data2.take m) width
  let s1 := if width = 1 then s1x.map (fun x => x - 128) else s1x
  let s2 := if width = 1 then s2x.map (fun x => x - 128) else s2x
  samples_to_bytes (List.zipWith (fun a b => a + b) s1 s2) width

/-- `bias(data, width, bias_value)`: the empty buffer is returned as-is
(before any width check); otherwise decode, sign-correct, add the constant
offset, re-encode with saturation. -/
def bias (data : List Nat) (width : Nat) (bias_value : Int) : Except AErr (List Nat) :=
  if data.length = 0 then .ok data
  else do
    let s0 ← get_samples data width
    let s := if width = 1 then s0.map (fun x => x - 128) else s0
    samples_to_bytes (s.map (fun x => x + bias_value)) width

/-- The byte-reversal loop of `byteswap`, structural on a fuel counter:
slice the buffer into `width`-sized chunks (the final chunk may be
shorter) and reverse each chunk.  Each iteration of the source loop
consumes at least one byte (`byteswap` rejects width 0 before the loop),
so with fuel equal to the buffer length the fuel-exhaustion branch is
unreachable. -/
def swapChunksF : Nat → Nat → List Nat → List Nat
  | _, _, [] => []
  | 0, _, _ :: _ => []
  | fuel + 1, w, x :: xs =>
    ((x :: xs).take w).reverse ++ swapChunksF fuel w ((x :: xs).drop w)

/-- The byte-reversal loop of `byteswap` at its canonical fuel. -/
def swapChunks (w : Nat) (l : List Nat) : List Nat := swapChunksF l.length w l

/-- `byteswap(data, width)`: width 1 returns the buffer unchanged; any
other width reverses each `width`-sized slice.  The function performs no
width validation at all; width 0 makes Python's `range` raise ValueError. -/
def byteswap (data : List Nat) (width : Nat) : Except AErr (List Nat) :=
  if width = 1 then .ok data
  else if width = 0 then .error .valueError
  else .ok (swapChunks width data)

/-- struct.unpack of one sample of the given width inside the `tomono`
loop; the slices handed to it always hold exactly `width` bytes because
the loop runs only after the alignment check. -/
def unpackSample (w : Nat) (bs : List Nat) : Int :=
  if w = 1 then (bs.getD 0 0 : Int)
  else if w = 2 then decodeS16 (bs.getD 0 0) (bs.getD 1 0)
  else decodeS32 (bs.getD 0 0) (bs.getD 1 0) (bs.getD 2 0) (bs.getD 3 0)

/-- struct.pack of one already-clamped sample inside the `tomono` loop. -/
def packSample (w : Nat) (s : Int) : List Nat :=
  if w = 1 then [s.toNat] else if w = 2 then packS16 s else packS32 s

/-- The per-frame loop of `tomono`, structural on a fuel counter: take
the left and right `width`-byte slices, unpack, sign-correct width-1
samples, mix with `int((L*lg + R*rg) / 2)` (truncation toward zero),
re-bias and clamp, and pack.  Each iteration of the source loop consumes
at least one byte (`tomono` raises ZeroDivisionError for width 0 before
the loop), so with fuel equal to the buffer length the fuel-exhaustion
branch is unreachable. -/
def tomonoGoF : Nat → Nat → ℚ → ℚ → List Nat → List Nat
  | _, _, _, _, [] => []
  | 0, _, _, _, _ :: _ => []
  | fuel + 1, w, lg, rg, x :: xs =>
    let d := x :: xs
    let ls0 := unpackSample w (d.take w)
    let rs0 := unpackSample w ((d.drop w).take w)
    let ls := if w = 1 then ls0 - 128 else ls0
    let rs := if w = 1 then rs0 - 128 else rs0
    let m0 := ratTrunc (((ls : ℚ) * lg + (rs : ℚ) * rg) / 2)
    let m : Int :=
      if w = 1 then max 0 (min 255 (m0 + 128))
      else if w = 2 then max (-32768) (min 32767 m0)
      else max (-2147483648) (min 2147483647 m0)
    packSample w m ++ tomonoGoF fuel w lg rg (d.drop (w * 2))

/-- The per-frame loop of `tomono` at its canonical fuel. -/
def tomonoGo (w : Nat) (lg rg : ℚ) (data : List Nat) : List Nat :=
  tomonoGoF data.length w lg rg data

/-- `tomono(data, width, left_gain, right_gain)`.  Python evaluates
`len(data) % (width * 2)` first (ZeroDivisionError when width is 0),
raises the module error on misalignment, then looks the width up in the
format dict (KeyError for any width outside {1,2,4}), and only then runs
the mixing loop.  Gains are modelled over `ℚ`; Python computes the mix in
floats, which agrees whenever the float products and sum are exact. -/
def tomono (data : List Nat) (width : Nat) (lg rg : ℚ) : Except AErr (List Nat) :=
  if width = 0 then .error .zeroDivisionError
  else if data.length % (width * 2) ≠ 0 then .error .formatError
  else if width ≠ 1 ∧ width ≠ 2 ∧ width ≠ 4 then .error .keyError
  else .ok (tomonoGo width lg rg data)

/-- Python objects passed through `ratecv` as the opaque `state` argument:
`None`, the empty dict the source substitutes for `None`, or any other
caller-supplied object (opaque). -/
inductive PyState where
  | noneV
  | emptyDict
  | other (tag : Nat)
deriving DecidableEq

/-- `ratecv(data, width, nchannels, inrate, outrate, state)` (the unused
`weightA`/`weightB` parameters are omitted; the source never reads them).
`None` state is replaced by an empty dict; equal rates return the data and
the (replaced) state untouched before any width validation; otherwise the
buffer is decoded and linearly interpolated.  Float arithmetic of the
source is modelled exactly over `ℚ`. -/
def ratecv (data : List Nat) (width nchannels inrate outrate : Nat) (state : PyState) :
    Except AErr (List Nat × PyState) :=
  let st := if state = PyState.noneV then PyState.emptyDict else state
  if inrate = outrate then .ok (data, st)
  else do
    let s0 ← get_samples data width
    let samples := if width = 1 then s0.map (fun x => x - 128) else s0
    if inrate = 0 ∨ nchannels = 0 then .error .zeroDivisionError
    else
      let n := samples.length
      let ratio : ℚ := (outrate : ℚ) / (inrate : ℚ)
      let newLength := (ratTrunc ((n : ℚ) * ratio / (nchannels : ℚ))).toNat * nchannels
      let newSamples := concatMap (fun i =>
        let oi : ℚ := (i : ℚ) / ratio
        let oii : Int := ratTrunc oi
        if oii < (n : Int) - (nchannels : Int) then
          (List.range nchannels).map (fun ch =>
            if oii + ch < (n : Int) ∧ oii + nchannels + ch < (n : Int) then
              let s1 := samples.getD (oii + ch).toNat 0
              let s2 := samples.getD (oii + nchannels + ch).toNat 0
              ratTrunc ((s1 : ℚ) + (oi - (oii : ℚ)) * ((s2 : ℚ) - (s1 : ℚ)))
            else samples.getD (min (oii + ch).toNat (n - 1)) 0)
        else
          (List.range nchannels).map (fun ch =>
            samples.getD (min (oii + ch).toNat (n - 1)) 0))
        (List.range' 0 (newLength / nchannels) nchannels)
      (samples_to_bytes newSamples width).map (fun out => (out, st))

/-- `lin2lin(data, width, new_width)`: equal widths return the buffer
unchanged before any validation; otherwise decode, sign-correct, rescale
every sample by `2^(8*new_width-1) / 2^(8*width-1)` with truncation toward
zero, and re-encode with saturation.  The exponents are taken over `Int`
(Python computes `2 ** -1` as the float 0.5); the scale is exact over `ℚ`
for all widths in {1,2,4}. -/
def lin2lin (data : List Nat) (width new_width : Nat) : Except AErr (List Nat) :=
  if width = new_width then .ok data
  else do
    let s0 ← get_samples data width
    let s := if width = 1 then s0.map (fun x => x - 128) else s0
    let scale : ℚ := (2 : ℚ) ^ ((new_width : Int) * 8 - 1) / (2 : ℚ) ^ ((width : Int) * 8 - 1)
    samples_to_bytes (s.map (fun x : Int => ratTrunc ((x : ℚ) * scale))) new_width

/-- Consecutive pairing of a sample list into (left, right) frames. -/
def pairUp : List Int → List (Int × Int)
  | a :: b :: rest => (a, b) :: pairUp rest
  | _ => []

/-- Modelled from the spec's words for the stereo downmix (§4.1
`downmix_stereo`), with `int()` truncation in place of the spec's
`round`: decode, sign-correct, mix each (L,R) frame with
`trunc((L*gainLeft + R*gainRight) / 2)`, then saturate/re-bias and pack
via the encoding step.  To be compared with `tomono`. -/
def downmix_spec (data : List Nat) (w : Nat) (lg rg : ℚ) : Except AErr (List Nat) :=
  if data.length % (w * 2) ≠ 0 then .error .formatError
  else do
    let s0 ← get_samples data w
    let s := if w = 1 then s0.map (fun x => x - 128) else s0
    let ms := (pairUp s).map (fun p => ratTrunc (((p.1 : ℚ) * lg + (p.2 : ℚ) * rg) / 2))
    samples_to_bytes ms w

/-- Modelled from the spec's words for the stereo downmix exactly as
written (§4.1: `round((L*gainLeft + R*gainRight) / 2)` with Python
rounding, half to even). -/
def downmix_round_spec (data : List Nat) (w : Nat) (lg rg : ℚ) : Except AErr (List Nat) :=
  if data.length % (w * 2) ≠ 0 then .error .formatError
  else do
    let s0 ← get_samples data w
    let s := if w = 1 then s0.map (fun x => x - 128) else s0
    let ms := (pairUp s).map (fun p => pyRound (((p.1 : ℚ) * lg + (p.2 : ℚ) * rg) / 2))
    samples_to_bytes ms w

end Audioop

namespace Aifc

/-- Errors raised by the aifc compatibility module's reader: `notAiff`
for the two magic-identifier checks ("Not an AIFF file") and `invalid`
for the struct.error/IOError paths re-raised as "Invalid AIFF file". -/
inductive AifcErr where
  | notAiff
  | invalid
deriving DecidableEq

/-- The reader's format fields: `_nchannels`, `_sampwidth`, `_framerate`,
`_nframes`. -/
structure AifcState where
  nchannels : Nat
  sampwidth : Nat
  framerate : Nat
  nframes : Nat
deriving DecidableEq

/-- The defaults installed by `Aifc_read.__init__` before parsing. -/
def initState : AifcState :=
  { nchannels := 1, sampwidth := 2, framerate := 44100, nframes := 0 }

/-- Big-endian value of a byte list (struct.unpack of formats >H / >L on
a buffer of the exact size). -/
def beNat (l : List Nat) : Nat := l.foldl (fun a b => a * 256 + b) 0

/-- struct.pack of format >H. -/
def be16 (n : Nat) : List Nat := [n / 256 % 256, n % 256]

/-- struct.pack of format >L. -/
def be32 (n : Nat) : List Nat :=
  [n / 16777216 % 256, n / 65536 % 256, n / 256 % 256, n % 256]

/-- struct.pack of format >Q. -/
def be64 (n : Nat) : List Nat :=
  [n / 72057594037927936 % 256, n / 281474976710656 % 256,
   n / 1099511627776 % 256, n / 4294967296 % 256,
   n / 16777216 % 256, n / 65536 % 256, n / 256 % 256, n % 256]

/-- The chunk-scanning loop of `Aifc_read._parseheader`, over the byte
stream remaining after the FORM/size/format header.  `file.read(n)`
returns `min n remaining` bytes; a short read feeding struct.unpack
raises struct.error, re-raised as the "Invalid AIFF file" error.  An
empty chunk id ends scanning; a COMM chunk reads channels, frame count
and bit width, fixes the frame rate at 44100 (the 10 rate bytes and any
AIFC tail are read and discarded, which cannot fail), and stops; any
other chunk is skipped, with one pad byte when its size is odd.  Each
iteration consumes at least 8 bytes of the stream, so fuel equal to the
initial stream length plus one can never run out; the fuel-exhaustion
branch mirrors the loop's `break`. -/
def parseChunks : Nat → List Nat → AifcState → Except AifcErr AifcState
  | 0, _, st => .ok st
  | fuel + 1, stream, st =>
    let idb := stream.take 4
    if idb.isEmpty then .ok st
    else
      let s1 := stream.drop 4
      let szb := s1.take 4
      if szb.length = 4 then
        let size := beNat szb
        let s2 := s1.drop 4
        if idb = [67, 79, 77, 77] then
          let chb := s2.take 2
          if chb.length = 2 then
            let s3 := s2.drop 2
            let nfb := s3.take 4
            if nfb.length = 4 then
              let s4 := s3.drop 4
              let swb := s4.take 2
              if swb.length = 2 then
                .ok { nchannels := beNat chb, sampwidth := beNat swb / 8,
                      framerate := 44100, nframes := beNat nfb }
              else .error .invalid
            else .error .invalid
          else .error .invalid
        else
          let skip := if size % 2 = 1 then size + 1 else size
          parseChunks fuel (s2.drop skip) st
      else .error .invalid

/-- `Aifc_read._parseheader`: expect the 4 bytes `FORM`, skip the outer
size, expect `AIFF` or `AIFC`, then scan chunks.  A short read at either
magic check compares unequal and raises the "Not an AIFF file" error,
matching the source. -/
def parseHeader (input : List Nat) : Except AifcErr AifcState :=
  if input.take 4 ≠ [70, 79, 82, 77] then .error .notAiff
  else
    let s1 := (input.drop 4).drop 4
    let fmt := s1.take 4
    if fmt ≠ [65, 73, 70, 70] ∧ fmt ≠ [65, 73, 70, 67] then .error .notAiff
    else parseChunks (input.length + 1) (s1.drop 4) initState

/-- `Aifc_write.close` as the byte string it writes for a descriptor
(nchannels, sampwidth, framerate) and the concatenated frame payload:
FORM header with the back-patched total size (total length minus 8),
`AIFF`, a COMM chunk of size 18 holding channel count, frame count
(`payload length / (nchannels * sampwidth)`), bit width, and the fixed
80-bit rate encoding `pack('>HQ', 0x400E, rate << 19)`, then an SSND
chunk with zero offset and block size.  Python's struct.pack would raise
on field values at or above 2^32 / 2^16; theorems bound the payload
length accordingly.  `nchannels * sampwidth = 0` would raise
ZeroDivisionError in the source and is likewise excluded by hypothesis
at use sites. -/
def writeClose (nch sw rate : Nat) (framesData : List Nat) : List Nat :=
  let L := framesData.length
  [70, 79, 82, 77] ++ be32 (54 + L - 8) ++ [65, 73, 70, 70]
    ++ [67, 79, 77, 77] ++ be32 18 ++ be16 nch ++ be32 (L / (nch * sw))
    ++ be16 (sw * 8) ++ be16 0x400E ++ be64 (rate * 524288)
    ++ [83, 83, 78, 68] ++ be32 (L + 8) ++ [0, 0, 0, 0] ++ [0, 0, 0, 0]
    ++ framesData

end Aifc

namespace Audioop

theorem decodeS16List_encodeS16 (s : Int) (rest : List Nat)
    (h1 : -32768 ≤ s) (h2 : s ≤ 32767) :
    decodeS16List (encodeS16 s ++ rest) = s :: decodeS16List rest := by
  have hmin : min 32767 s = s := min_eq_right h2
  have hmax : max (-32768) s = s := max_eq_right h1
  simp only [encodeS16, hmin, hmax, packS16, List.cons_append, List.nil_append, decodeS16List]
  congr 1
  simp only [decodeS16]
  split <;> omega

theorem decodeS32List_encodeS32 (s : Int) (rest : List Nat)
    (h1 : -2147483648 ≤ s) (h2 : s ≤ 2147483647) :
    decodeS32List (encodeS32 s ++ rest) = s :: decodeS32List rest := by
  have hmin : min 2147483647 s = s := min_eq_right h2
  have hmax : max (-2147483648) s = s := max_eq_right h1
  simp only [encodeS32, hmin, hmax, packS32, List.cons_append, List.nil_append, decodeS32List]
  congr 1
  simp only [decodeS32]
  split <;> omega

theorem decodeS16List_concatMap (S : List Int)
    (h : ∀ s ∈ S, -32768 ≤ s ∧ s ≤ 32767) :
    decodeS16List (concatMap encodeS16 S) = S := by
  induction S with
  | nil => rfl
  | cons a t ih =>
    have ha := h a (List.mem_cons_self a t)
    simp only [concatMap]
    rw [decodeS16List_encodeS16 a _ ha.1 ha.2,
      ih (fun s hs => h s (List.mem_cons_of_mem a hs))]

theorem decodeS32List_concatMap (S : List Int)
    (h : ∀ s ∈ S, -2147483648 ≤ s ∧ s ≤ 2147483647) :
    decodeS32List (concatMap encodeS32 S) = S := by
  induction S with
  | nil => rfl
  | cons a t ih =>
    have ha := h a (List.mem_cons_self a t)
    simp only [concatMap]
    rw [decodeS32List_encodeS32 a _ ha.1 ha.2,
      ih (fun s hs => h s (List.mem_cons_of_mem a hs))]

theorem concatMap_encodeS16_length (S : List Int) :
    (concatMap encodeS16 S).length = 2 * S.length := by
  induction S with
  | nil => rfl
  | cons a t ih =>
    simp only [concatMap, List.length_append, ih, encodeS16, packS16]
    simp [List.length_cons]
    ring

theorem concatMap_encodeS32_length (S : List Int) :
    (concatMap encodeS32 S).length = 4 * S.length := by
  induction S with
  | nil => rfl
  | cons a t ih =>
    simp only [concatMap, List.length_append, ih, encodeS32, packS32]
    simp [List.length_cons]
    ring

theorem concatMap_encodeU8_map (S : List Int) :
    (concatMap encodeU8 S).map (fun b => (b : Int))
      = S.map (fun s => max 0 (min 255 (s + 128))) := by
  induction S with
  | nil => rfl
  | cons a t ih =>
    simp only [concatMap, encodeU8, List.cons_append, List.nil_append, List.map_cons, ih,
      List.map]
    congr 1
    exact Int.toNat_of_nonneg (le_max_left 0 _)

/-- C1 (corrected): the claim as stated fails at width 1, where decoding
returns the raw unsigned bytes: encoding the in-range sample 0 and
decoding yields 128, not 0. -/
theorem C1_counterexample :
    (samples_to_bytes [0] 1).bind (fun b => get_samples b 1) ≠ Except.ok [(0 : Int)] := by
  decide

/-- C1 (amended): for widths 2 and 4, decoding the encoding of any
sequence of samples already inside the signed representable range of the
width returns the sequence itself; at width 1 the round trip instead
returns each sample re-biased and clamped, `max 0 (min 255 (s + 128))`,
because width-1 decoding yields the raw unsigned bytes. -/
theorem C1_roundtrip :
    (∀ (w : Nat) (S : List Int), (w = 2 ∨ w = 4) →
        (∀ s ∈ S, -(2 ^ (8 * w - 1) : Int) ≤ s ∧ s ≤ 2 ^ (8 * w - 1) - 1) →
        (samples_to_bytes S w).bind (fun b => get_samples b w) = Except.ok S)
    ∧ (∀ S : List Int,
        (samples_to_bytes S 1).bind (fun b => get_samples b 1)
          = Except.ok (S.map (fun s => max 0 (min 255 (s + 128))))) := by
  constructor
  · intro w S hw h
    rcases hw with hw | hw <;> subst hw
    · have hr : ∀ s ∈ S, -32768 ≤ s ∧ s ≤ 32767 := by
        intro s hs
        have := h s hs
        norm_num at this
        omega
      have hlen : (concatMap encodeS16 S).length % 2 = 0 := by
        rw [concatMap_encodeS16_length]; omega
      simp [samples_to_bytes, get_samples, Except.bind, hlen, decodeS16List_concatMap S hr]
    · have hr : ∀ s ∈ S, -2147483648 ≤ s ∧ s ≤ 2147483647 := by
        intro s hs
        have := h s hs
        norm_num at this
        omega
      have hlen : (concatMap encodeS32 S).length % 4 = 0 := by
        rw [concatMap_encodeS32_length]; omega
      simp [samples_to_bytes, get_samples, Except.bind, hlen, decodeS32List_concatMap S hr]
  · intro S
    show Except.ok ((concatMap encodeU8 S).map (fun b => (b : Int)))
        = Except.ok (S.map fun s => max 0 (min 255 (s + 128)))
    rw [concatMap_encodeU8_map]

/-- Witness for C1: a concrete instantiation at width 2. -/
theorem C1_roundtrip_witness :
    (samples_to_bytes [5, -3] 2).bind (fun b => get_samples b 2) = Except.ok [5, -3] :=
  C1_roundtrip.1 2 [5, -3] (Or.inl rfl) (by decide)

theorem swapChunksF_nil (fuel w : Nat) : swapChunksF fuel w [] = [] := by
  cases fuel <;> rfl

theorem swapChunksF_fuel (w : Nat) (hw : w ≠ 0) :
    ∀ (fuel fuel' : Nat) (l : List Nat), l.length ≤ fuel → l.length ≤ fuel' →
      swapChunksF fuel w l = swapChunksF fuel' w l := by
  intro fuel
  induction fuel with
  | zero =>
    intro fuel' l h h'
    cases l with
    | nil => rw [swapChunksF_nil, swapChunksF_nil]
    | cons x xs => simp at h
  | succ n ih =>
    intro fuel' l h h'
    cases l with
    | nil => rw [swapChunksF_nil, swapChunksF_nil]
    | cons x xs =>
      cases fuel' with
      | zero => simp at h'
      | succ m =>
        show ((x :: xs).take w).reverse ++ swapChunksF n w ((x :: xs).drop w)
          = ((x :: xs).take w).reverse ++ swapChunksF m w ((x :: xs).drop w)
        congr 1
        apply ih
        · rw [List.length_drop]
          simp only [List.length_cons] at h ⊢
          omega
        · rw [List.length_drop]
          simp only [List.length_cons] at h' ⊢
          omega

theorem swapChunks_nil (w : Nat) : swapChunks w [] = [] := rfl

theorem swapChunks_cons_eq (w : Nat) (hw : w ≠ 0) (l : List Nat) (hl : l ≠ []) :
    swapChunks w l = (l.take w).reverse ++ swapChunks w (l.drop w) := by
  cases l with
  | nil => exact absurd rfl hl
  | cons x xs =>
    show ((x :: xs).take w).reverse ++ swapChunksF xs.length w ((x :: xs).drop w)
      = (List.take w (x :: xs)).reverse ++ swapChunks w ((x :: xs).drop w)
    congr 1
    apply swapChunksF_fuel w hw
    · rw [List.length_drop]
      simp only [List.length_cons]
      omega
    · exact le_rfl

theorem swapChunks_small (w : Nat) (hw : w ≠ 0) (l : List Nat) (h : l.length ≤ w) :
    swapChunks w l = l.reverse := by
  cases l with
  | nil => rw [swapChunks_nil]; rfl
  | cons x xs =>
    rw [swapChunks_cons_eq w hw _ (by simp)]
    rw [List.take_of_length_le h, List.drop_eq_nil_of_le h]
    rw [swapChunks_nil, List.append_nil]

theorem swapChunks_invol (w : Nat) (hw : w ≠ 0) (l : List Nat) :
    swapChunks w (swapChunks w l) = l := by
  generalize hn : l.length = n
  induction n using Nat.strong_induction_on generalizing l with
  | _ n ih =>
    cases l with
    | nil => rw [swapChunks_nil, swapChunks_nil]
    | cons x xs =>
      by_cases hlen : (x :: xs).length ≤ w
      · rw [swapChunks_small w hw _ hlen,
          swapChunks_small w hw _ (by simpa using hlen), List.reverse_reverse]
      · have hwle : w ≤ (x :: xs).length := le_of_not_le hlen
        have hA : (((x :: xs).take w).reverse).length = w := by
          rw [List.length_reverse, List.length_take]
          omega
        have hinner : swapChunks w (x :: xs)
            = ((x :: xs).take w).reverse ++ swapChunks w ((x :: xs).drop w) :=
          swapChunks_cons_eq w hw _ (by simp)
        have hne : ((x :: xs).take w).reverse ++ swapChunks w ((x :: xs).drop w) ≠ [] := by
          intro hc
          have h0 := congrArg List.length hc
          rw [List.length_append, hA] at h0
          simp at h0
          omega
        have ihd := ih ((x :: xs).drop w).length
          (by subst hn; rw [List.length_drop]; simp; omega)
          ((x :: xs).drop w) rfl
        rw [hinner, swapChunks_cons_eq w hw _ hne,
          List.take_left' hA, List.drop_left' hA, List.reverse_reverse, ihd]
        exact List.take_append_drop w (x :: xs)

/-- C8: byteswap is an involution for widths 2 and 4, and the identity at
width 1. -/
theorem C8_byteswap_involution :
    ∀ (X : List Nat) (w : Nat),
      ((w = 2 ∨ w = 4) → (byteswap X w).bind (fun y => byteswap y w) = Except.ok X)
      ∧ byteswap X 1 = Except.ok X := by
  intro X w
  constructor
  · intro hw
    have hw0 : w ≠ 0 := by rcases hw with h | h <;> omega
    have hw1 : w ≠ 1 := by rcases hw with h | h <;> omega
    rw [show byteswap X w = Except.ok (swapChunks w X) from by simp [byteswap, hw0, hw1]]
    show byteswap (swapChunks w X) w = Except.ok X
    simp [byteswap, hw0, hw1, swapChunks_invol w hw0 X]
  · simp [byteswap]

/-- Witness for C8: a concrete instantiation at width 2 on a buffer with
a partial trailing chunk. -/
theorem C8_byteswap_involution_witness :
    (byteswap [1, 2, 3] 2).bind (fun y => byteswap y 2) = Except.ok [1, 2, 3] :=
  (C8_byteswap_involution [1, 2, 3] 2).1 (Or.inl rfl)

/-- C9: for every valid width, a buffer whose length is not a multiple of
twice the width makes tomono fail with the format error ("Data length not
compatible with stereo format"), producing no result. -/
theorem C9_tomono_misaligned (w : Nat) (data : List Nat) (lg rg : ℚ)
    (hw : w = 1 ∨ w = 2 ∨ w = 4) (h : data.length % (w * 2) ≠ 0) :
    tomono data w lg rg = Except.error AErr.formatError := by
  have hw0 : w ≠ 0 := by rcases hw with h | h | h <;> omega
  simp [tomono, hw0, h]

/-- Witness for C9: a one-byte buffer at width 2. -/
theorem C9_tomono_misaligned_witness :
    tomono [0] 2 1 1 = Except.error AErr.formatError :=
  C9_tomono_misaligned 2 [0] 1 1 (Or.inr (Or.inl rfl)) (by decide)

/-- C7 fails as stated for the None state: the source replaces a None
state with a fresh empty dict, so the state component comes back changed. -/
theorem C7_counterexample :
    ratecv [0] 1 1 8000 8000 PyState.noneV = Except.ok ([0], PyState.emptyDict)
    ∧ PyState.emptyDict ≠ PyState.noneV := by
  exact ⟨by decide, by decide⟩

/-- C7 (amended): with equal input and output rates, resample returns the
data unchanged and the state unchanged provided the state is not None
(a None state comes back as an empty dict); this happens before any
width or channel validation. -/
theorem C7_ratecv_id (data : List Nat) (width nchannels r : Nat) (st : PyState)
    (h : st ≠ PyState.noneV) :
    ratecv data width nchannels r r st = Except.ok (data, st) := by
  simp [ratecv, h]

/-- Witness for C7: concrete data with an opaque non-None state (and an
invalid width, which equal-rate resampling never checks). -/
theorem C7_ratecv_id_witness :
    ratecv [7] 3 0 8000 8000 (PyState.other 5) = Except.ok ([7], PyState.other 5) :=
  C7_ratecv_id [7] 3 0 8000 (PyState.other 5) (by decide)

theorem ebind_err {α β : Type} (e : AErr) (f : α → Except AErr β) :
    (Except.error e : Except AErr α) >>= f = Except.error e := rfl

/-- C3 fails as stated: byteswap performs no width validation at all; at
the unsupported width 3 it returns a swapped buffer instead of raising. -/
theorem C3_counterexample :
    byteswap [0, 1, 2, 3, 4, 5] 3 = Except.ok [2, 1, 0, 5, 4, 3] := by
  decide

/-- C3 (amended): for every width outside {1,2,4} — width 0 included —
decode, encode and add always fail with the unsupported-width error; rms
and bias do so exactly on non-empty buffers, while an empty buffer
returns a result (0, resp. the empty buffer) first; convert_width fails
exactly when the two widths differ and returns the input unchanged when
they are equal; resample fails exactly when the rates differ and returns
the input (with a None state replaced by an empty dict) when they are
equal, before any validation; byteswap never raises the module error:
width 0 raises ValueError and every other width returns a swapped
buffer; and downmix_stereo never raises the unsupported-width error
either: width 0 raises ZeroDivisionError, misaligned input raises the
format error, and aligned input raises a KeyError, which is not the
module's error type. -/
theorem C3_unsupported_width (w : Nat) (hw1 : w ≠ 1) (hw2 : w ≠ 2) (hw4 : w ≠ 4) :
    (∀ data, get_samples data w = Except.error (AErr.unsupportedWidth w))
    ∧ (∀ S, samples_to_bytes S w = Except.error (AErr.unsupportedWidth w))
    ∧ (∀ data, data ≠ [] → rms data w = Except.error (AErr.unsupportedWidth w))
    ∧ rms [] w = Except.ok 0
    ∧ (∀ d1 d2, add d1 d2 w = Except.error (AErr.unsupportedWidth w))
    ∧ (∀ data b, data ≠ [] → bias data w b = Except.error (AErr.unsupportedWidth w))
    ∧ (∀ b, bias [] w b = Except.ok [])
    ∧ (∀ data, byteswap data w
        = if w = 0 then Except.error AErr.valueError else Except.ok (swapChunks w data))
    ∧ (∀ (data : List Nat) (lg rg : ℚ), tomono data w lg rg
        = Except.error (if w = 0 then AErr.zeroDivisionError
            else if data.length % (w * 2) = 0 then AErr.keyError else AErr.formatError))
    ∧ (∀ data nw, w ≠ nw → lin2lin data w nw = Except.error (AErr.unsupportedWidth w))
    ∧ (∀ data, lin2lin data w w = Except.ok data)
    ∧ (∀ data ch ir orate st, ir ≠ orate →
        ratecv data w ch ir orate st = Except.error (AErr.unsupportedWidth w))
    ∧ (∀ data ch r st, ratecv data w ch r r st
        = Except.ok (data, if st = PyState.noneV then PyState.emptyDict else st)) := by
  refine ⟨?_, ?_, ?_, ?_, ?_, ?_, ?_, ?_, ?_, ?_, ?_, ?_, ?_⟩
  · intro data
    simp [get_samples, hw1, hw2, hw4]
  · intro S
    simp [samples_to_bytes, hw1, hw2, hw4]
  · intro data hne
    have hlen : ¬data.length = 0 := fun hc => hne (List.length_eq_zero.mp hc)
    simp [rms, hlen, get_samples, hw1, hw2, hw4, ebind_err]
  · simp [rms]
  · intro d1 d2
    simp [add, get_samples, hw1, hw2, hw4, ebind_err]
  · intro data b hne
    have hlen : ¬data.length = 0 := fun hc => hne (List.length_eq_zero.mp hc)
    simp [bias, hlen, get_samples, hw1, hw2, hw4, ebind_err]
  · intro b
    simp [bias]
  · intro data
    by_cases h0 : w = 0
    · subst h0
      simp [byteswap]
    · simp [byteswap, hw1, h0]
  · intro data lg rg
    by_cases h0 : w = 0
    · subst h0
      simp [tomono]
    · by_cases ha : data.length % (w * 2) = 0
      · simp [tomono, h0, ha, hw1, hw2, hw4]
      · simp [tomono, h0, ha]
  · intro data nw hne
    simp [lin2lin, hne, get_samples, hw1, hw2, hw4, ebind_err]
  · intro data
    simp [lin2lin]
  · intro data ch ir orate st hir
    simp [ratecv, hir, get_samples, hw1, hw2, hw4, ebind_err]
  · intro data ch r st
    simp [ratecv]

/-- Witness for C3: the decode component at width 3. -/
theorem C3_unsupported_width_witness :
    get_samples [0] 3 = Except.error (AErr.unsupportedWidth 3) :=
  (C3_unsupported_width 3 (by decide) (by decide) (by decide)).1 [0]

theorem ebind_ok {α β : Type} (a : α) (f : α → Except AErr β) :
    (Except.ok a : Except AErr α) >>= f = f a := rfl

theorem tomonoGoF_w2 (lg rg : ℚ) :
    ∀ (fuel : Nat) (data : List Nat), data.length ≤ fuel → data.length % 4 = 0 →
      tomonoGoF fuel 2 lg rg data
        = concatMap encodeS16 ((pairUp (decodeS16List data)).map
            (fun p => ratTrunc (((p.1 : ℚ) * lg + (p.2 : ℚ) * rg) / 2))) := by
  intro fuel
  induction fuel with
  | zero =>
    intro data h hm
    cases data with
    | nil => rfl
    | cons b t => simp at h
  | succ n ih =>
    intro data h hm
    cases data with
    | nil => rfl
    | cons b0 t0 =>
      cases t0 with
      | nil => simp at hm
      | cons b1 t1 =>
        cases t1 with
        | nil => simp at hm
        | cons b2 t2 =>
          cases t2 with
          | nil => simp at hm
          | cons b3 rest =>
            show packSample 2 (max (-32768) (min 32767
                (ratTrunc (((decodeS16 b0 b1 : ℚ) * lg + (decodeS16 b2 b3 : ℚ) * rg) / 2))))
                ++ tomonoGoF n 2 lg rg rest
              = encodeS16
                (ratTrunc (((decodeS16 b0 b1 : ℚ) * lg + (decodeS16 b2 b3 : ℚ) * rg) / 2))
                ++ concatMap encodeS16 ((pairUp (decodeS16List rest)).map
                    (fun p => ratTrunc (((p.1 : ℚ) * lg + (p.2 : ℚ) * rg) / 2)))
            congr 1
            apply ih rest
            · simp only [List.length_cons] at h
              omega
            · simp only [List.length_cons] at hm ⊢
              omega

theorem tomonoGoF_w1 (lg rg : ℚ) :
    ∀ (fuel : Nat) (data : List Nat), data.length ≤ fuel → data.length % 2 = 0 →
      tomonoGoF fuel 1 lg rg data
        = concatMap encodeU8 ((pairUp ((data.map (fun b => (b : Int))).map
            (fun x => x - 128))).map
            (fun p => ratTrunc (((p.1 : ℚ) * lg + (p.2 : ℚ) * rg) / 2))) := by
  intro fuel
  induction fuel with
  | zero =>
    intro data h hm
    cases data with
    | nil => rfl
    | cons b t => simp at h
  | succ n ih =>
    intro data h hm
    cases data with
    | nil => rfl
    | cons b0 t0 =>
      cases t0 with
      | nil => simp at hm
      | cons b1 rest =>
        show packSample 1 (max 0 (min 255
            (ratTrunc (((((b0 : Int) - 128 : Int) : ℚ) * lg
              + (((b1 : Int) - 128 : Int) : ℚ) * rg) / 2) + 128)))
            ++ tomonoGoF n 1 lg rg rest
          = encodeU8 (ratTrunc (((((b0 : Int) - 128 : Int) : ℚ) * lg
              + (((b1 : Int) - 128 : Int) : ℚ) * rg) / 2))
            ++ concatMap encodeU8 ((pairUp ((rest.map (fun b => (b : Int))).map
                (fun x => x - 128))).map
                (fun p => ratTrunc (((p.1 : ℚ) * lg + (p.2 : ℚ) * rg) / 2)))
        congr 1
        apply ih rest
        · simp only [List.length_cons] at h
          omega
        · simp only [List.length_cons] at hm ⊢
          omega

theorem tomonoGoF_w4 (lg rg : ℚ) :
    ∀ (fuel : Nat) (data : List Nat), data.length ≤ fuel → data.length % 8 = 0 →
      tomonoGoF fuel 4 lg rg data
        = concatMap encodeS32 ((pairUp (decodeS32List data)).map
            (fun p => ratTrunc (((p.1 : ℚ) * lg + (p.2 : ℚ) * rg) / 2))) := by
  intro fuel
  induction fuel with
  | zero =>
    intro data h hm
    cases data with
    | nil => rfl
    | cons b t => simp at h
  | succ n ih =>
    intro data h hm
    cases data with
    | nil => rfl
    | cons b0 t0 =>
      cases t0 with
      | nil => simp at hm
      | cons b1 t1 =>
        cases t1 with
        | nil => simp at hm
        | cons b2 t2 =>
          cases t2 with
          | nil => simp at hm
          | cons b3 t3 =>
            cases t3 with
            | nil => simp at hm
            | cons b4 t4 =>
              cases t4 with
              | nil => simp at hm
              | cons b5 t5 =>
                cases t5 with
                | nil => simp at hm
                | cons b6 t6 =>
                  cases t6 with
                  | nil => simp at hm
                  | cons b7 rest =>
                    show packSample 4 (max (-2147483648) (min 2147483647
                        (ratTrunc (((decodeS32 b0 b1 b2 b3 : ℚ) * lg
                          + (decodeS32 b4 b5 b6 b7 : ℚ) * rg) / 2))))
                        ++ tomonoGoF n 4 lg rg rest
                      = encodeS32 (ratTrunc (((decodeS32 b0 b1 b2 b3 : ℚ) * lg
                          + (decodeS32 b4 b5 b6 b7 : ℚ) * rg) / 2))
                        ++ concatMap encodeS32 ((pairUp (decodeS32List rest)).map
                            (fun p => ratTrunc (((p.1 : ℚ) * lg + (p.2 : ℚ) * rg) / 2)))
                    congr 1
                    apply ih rest
                    · simp only [List.length_cons] at h
                      omega
                    · simp only [List.length_cons] at hm ⊢
                      omega

/-- C2 fails as stated: the source mixes with int() truncation toward
zero, not with round.  On the 16-bit stereo frame (L, R) = (1, 2) with
both gains 1 the mix value is 3/2; tomono emits the sample 1 while the
spec's rounding formula demands 2. -/
theorem C2_counterexample :
    tomono [1, 0, 2, 0] 2 1 1 = Except.ok [1, 0]
    ∧ downmix_round_spec [1, 0, 2, 0] 2 1 1 = Except.ok [2, 0] := by
  have h1 : ratTrunc ((((1 : Int) : ℚ) * 1 + ((2 : Int) : ℚ) * 1) / 2) = 1 := by
    norm_num [ratTrunc]
    decide
  have h2 : pyRound ((((1 : Int) : ℚ) * 1 + ((2 : Int) : ℚ) * 1) / 2) = 2 := by
    norm_num [pyRound, Rat.floor_def']
  constructor
  · show Except.ok (packSample 2 (max (-32768) (min 32767
        (ratTrunc ((((1 : Int) : ℚ) * 1 + ((2 : Int) : ℚ) * 1) / 2))))
        ++ tomonoGoF 3 2 1 1 (List.drop 4 [1, 0, 2, 0])) = Except.ok [1, 0]
    rw [h1]
    decide
  · show Except.ok (concatMap encodeS16
        [pyRound ((((1 : Int) : ℚ) * 1 + ((2 : Int) : ℚ) * 1) / 2)]) = Except.ok [2, 0]
    rw [h2]
    decide

/-- C2 (amended): for every valid width, aligned stereo buffer and pair
of gains, tomono equals the spec-modelled downmix pipeline in which each
frame is sign-corrected, mixed with int((L*gainLeft + R*gainRight) / 2)
— truncation toward zero, where the spec says round —, saturated to the
width's range and re-biased for width 1. -/
theorem C2_downmix (data : List Nat) (w : Nat) (lg rg : ℚ)
    (hw : w = 1 ∨ w = 2 ∨ w = 4) (ha : data.length % (w * 2) = 0) :
    tomono data w lg rg = downmix_spec data w lg rg := by
  rcases hw with rfl | rfl | rfl
  · have hm : data.length % 2 = 0 := by simpa using ha
    have hgo := tomonoGoF_w1 lg rg data.length data le_rfl hm
    simp [tomono, downmix_spec, tomonoGo, get_samples, samples_to_bytes, ebind_ok, ha, hgo]
  · have hm : data.length % 4 = 0 := by simpa using ha
    have hgo := tomonoGoF_w2 lg rg data.length data le_rfl hm
    have hm2 : data.length % 2 = 0 := by omega
    simp [tomono, downmix_spec, tomonoGo, get_samples, samples_to_bytes, ebind_ok, ha, hm2, hgo]
  · have hm : data.length % 8 = 0 := by simpa using ha
    have hgo := tomonoGoF_w4 lg rg data.length data le_rfl hm
    have hm4 : data.length % 4 = 0 := by omega
    simp [tomono, downmix_spec, tomonoGo, get_samples, samples_to_bytes, ebind_ok, ha, hm4, hgo]

/-- Witness for C2: the frame of the counterexample, at width 2. -/
theorem C2_downmix_witness :
    tomono [1, 0, 2, 0] 2 1 1 = downmix_spec [1, 0, 2, 0] 2 1 1 :=
  C2_downmix [1, 0, 2, 0] 2 1 1 (Or.inr (Or.inl rfl)) (by decide)

theorem decodeS16_range (b0 b1 : Nat) (h0 : b0 < 256) (h1 : b1 < 256) :
    -32768 ≤ decodeS16 b0 b1 ∧ decodeS16 b0 b1 ≤ 32767 := by
  simp only [decodeS16]
  split <;> omega

theorem decodeS16List_range : ∀ l : List Nat, (∀ b ∈ l, b < 256) →
    ∀ s ∈ decodeS16List l, -32768 ≤ s ∧ s ≤ 32767
  | [], _, s, hs => by simp [decodeS16List] at hs
  | [b], _, s, hs => by simp [decodeS16List] at hs
  | b0 :: b1 :: rest, h, s, hs => by
    simp only [decodeS16List, List.mem_cons] at hs
    rcases hs with rfl | hs
    · exact decodeS16_range b0 b1 (h b0 (by simp)) (h b1 (by simp))
    · exact decodeS16List_range rest (fun b hb => h b (by simp [hb])) s hs

theorem encodeS16_decodeS16 (b0 b1 : Nat) (h0 : b0 < 256) (h1 : b1 < 256) :
    encodeS16 (decodeS16 b0 b1) = [b0, b1] := by
  have hr := decodeS16_range b0 b1 h0 h1
  have hcase : decodeS16 b0 b1 = ((b0 + 256 * b1 : Nat) : Int)
      ∨ decodeS16 b0 b1 = ((b0 + 256 * b1 : Nat) : Int) - 65536 := by
    simp only [decodeS16]
    split
    · exact Or.inl rfl
    · exact Or.inr rfl
  simp only [encodeS16, min_eq_right hr.2, max_eq_right hr.1, packS16]
  rcases hcase with h | h <;> rw [h] <;> simp only [List.cons.injEq, and_true] <;>
    exact ⟨by omega, by omega⟩

theorem concatMap_encodeS16_decodeS16List : ∀ X : List Nat, (∀ b ∈ X, b < 256) →
    X.length % 2 = 0 → concatMap encodeS16 (decodeS16List X) = X
  | [], _, _ => rfl
  | [b], _, hlen => by simp at hlen
  | b0 :: b1 :: rest, h, hlen => by
    show encodeS16 (decodeS16 b0 b1) ++ concatMap encodeS16 (decodeS16List rest)
      = b0 :: b1 :: rest
    rw [encodeS16_decodeS16 b0 b1 (h b0 (by simp)) (h b1 (by simp)),
      concatMap_encodeS16_decodeS16List rest (fun b hb => h b (by simp [hb]))
        (by simp only [List.length_cons] at hlen ⊢; omega)]
    rfl

theorem ratTrunc_intCast (n : Int) : ratTrunc ((n : Int) : ℚ) = n := by
  simp only [ratTrunc, Rat.num_intCast, Rat.den_intCast, Nat.cast_one]
  cases n with
  | ofNat m => simp [Int.tdiv]
  | negSucc m => simp [Int.tdiv, Int.negSucc_eq]; try ring

theorem ratTrunc_up (x : Int) : ratTrunc ((x : ℚ) * 65536) = x * 65536 := by
  rw [show ((x : ℚ) * 65536) = ((x * 65536 : Int) : ℚ) by push_cast; ring]
  exact ratTrunc_intCast _

theorem ratTrunc_down (x : Int) : ratTrunc (((x * 65536 : Int) : ℚ) * (1 / 65536)) = x := by
  rw [show (((x * 65536 : Int) : ℚ) * (1 / 65536)) = ((x : Int) : ℚ) by push_cast; ring]
  exact ratTrunc_intCast _

/-- C10: converting a buffer of complete 16-bit samples up to 32 bits and
back down is exactly the identity: the up-scale multiplies each sample by
exactly 2^16 (staying inside the 32-bit range, so saturation never
clips), and the down-scale multiplies by exactly 2^-16 with truncation
toward zero, losing nothing. -/
theorem C10_width_roundtrip (X : List Nat) (hb : ∀ b ∈ X, b < 256)
    (hl : X.length % 2 = 0) :
    (lin2lin X 2 4).bind (fun y => lin2lin y 4 2) = Except.ok X := by
  have hS : ∀ s ∈ decodeS16List X, -32768 ≤ s ∧ s ≤ 32767 := decodeS16List_range X hb
  have hget : get_samples X 2 = Except.ok (decodeS16List X) := by simp [get_samples, hl]
  have hsc : ((2 : ℚ) ^ (((4 : Nat) : Int) * 8 - 1) / (2 : ℚ) ^ (((2 : Nat) : Int) * 8 - 1))
      = 65536 := by norm_num
  have e1 : lin2lin X 2 4
      = Except.ok (concatMap encodeS32 ((decodeS16List X).map (fun x => x * 65536))) := by
    simp only [lin2lin, hget, ebind_ok]
    rw [if_neg (by decide), if_neg (by decide), hsc]
    simp only [ratTrunc_up, samples_to_bytes]
    rw [if_neg (by decide), if_neg (by decide)]
    simp
  rw [e1]
  show lin2lin (concatMap encodeS32 ((decodeS16List X).map (fun x => x * 65536))) 4 2
    = Except.ok X
  have hYlen : (concatMap encodeS32 ((decodeS16List X).map (fun x => x * 65536))).length % 4
      = 0 := by rw [concatMap_encodeS32_length]; omega
  have hrange : ∀ t ∈ (decodeS16List X).map (fun x => x * 65536),
      -2147483648 ≤ t ∧ t ≤ 2147483647 := by
    intro t ht
    obtain ⟨s, hs, rfl⟩ := List.mem_map.mp ht
    have := hS s hs
    omega
  have hdec : decodeS32List (concatMap encodeS32 ((decodeS16List X).map (fun x => x * 65536)))
      = (decodeS16List X).map (fun x => x * 65536) := decodeS32List_concatMap _ hrange
  have hget2 : get_samples (concatMap encodeS32 ((decodeS16List X).map (fun x => x * 65536))) 4
      = Except.ok ((decodeS16List X).map (fun x => x * 65536)) := by
    simp [get_samples, hYlen, hdec]
  have hscd : ((2 : ℚ) ^ (((2 : Nat) : Int) * 8 - 1) / (2 : ℚ) ^ (((4 : Nat) : Int) * 8 - 1))
      = 1 / 65536 := by norm_num
  have hfun : ((fun x : Int => ratTrunc ((x : ℚ) * (1 / 65536))) ∘ (fun x : Int => x * 65536))
      = fun s : Int => s := funext (fun s => ratTrunc_down s)
  simp only [lin2lin, hget2, ebind_ok]
  rw [if_neg (by decide), if_neg (by decide), hscd, List.map_map, hfun]
  simp only [samples_to_bytes]
  rw [if_neg (by decide)]
  simp [List.map_id', concatMap_encodeS16_decodeS16List X hb hl]

/-- Witness for C10: a concrete two-sample buffer. -/
theorem C10_width_roundtrip_witness :
    (lin2lin [1, 2, 3, 254] 2 4).bind (fun y => lin2lin y 4 2) = Except.ok [1, 2, 3, 254] :=
  C10_width_roundtrip [1, 2, 3, 254] (by decide) (by decide)

end Audioop

namespace Aifc

/-- C5: an input whose first four bytes are not the ASCII identifier FORM
makes the reader's header parse fail with the "Not an AIFF file" error. -/
theorem C5_notForm (input : List Nat) (h : input.take 4 ≠ [70, 79, 82, 77]) :
    parseHeader input = Except.error AifcErr.notAiff := by
  simp [parseHeader, h]

/-- Witness for C5: four zero bytes. -/
theorem C5_notForm_witness :
    parseHeader [0, 0, 0, 0] = Except.error AifcErr.notAiff :=
  C5_notForm [0, 0, 0, 0] (by decide)

theorem parseChunks_framerate (fuel : Nat) :
    ∀ (stream : List Nat) (st r : AifcState),
      st.framerate = 44100 → parseChunks fuel stream st = Except.ok r →
      r.framerate = 44100 := by
  induction fuel with
  | zero =>
    intro stream st r h hp
    cases hp
    exact h
  | succ n ih =>
    intro stream st r h hp
    simp only [parseChunks] at hp
    split at hp
    · cases hp; exact h
    · split at hp
      · split at hp
        · split at hp
          · split at hp
            · split at hp
              · cases hp; rfl
              · exact Except.noConfusion hp
            · exact Except.noConfusion hp
          · exact Except.noConfusion hp
        · exact ih _ _ _ h hp
      · exact Except.noConfusion hp

/-- C6: every input the reader parses successfully reports the fixed
nominal frame rate 44100, whatever the stored rate field holds. -/
theorem C6_framerate (input : List Nat) (r : AifcState)
    (h : parseHeader input = Except.ok r) : r.framerate = 44100 := by
  simp only [parseHeader] at h
  split at h
  · exact Except.noConfusion h
  · split at h
    · exact Except.noConfusion h
    · exact parseChunks_framerate _ _ _ _ rfl h

/-- Witness for C6: a minimal FORM/AIFF header with no chunks parses to
the default state, whose frame rate is 44100. -/
theorem C6_framerate_witness :
    AifcState.framerate
      { nchannels := 1, sampwidth := 2, framerate := 44100, nframes := 0 } = 44100 :=
  C6_framerate [70, 79, 82, 77, 0, 0, 0, 0, 65, 73, 70, 70]
    { nchannels := 1, sampwidth := 2, framerate := 44100, nframes := 0 } (by decide)

/-- C4: writing any PCM payload through the writer with descriptor
{channels 1, width 2, rate 16000} and finalizing, then parsing the
produced bytes with the reader, recovers channel count 1, sample width 2
and frame count payload-length / 2 (and the reader's fixed nominal rate).
The payload bound keeps the writer's 32-bit size fields in range, where
Python's struct.pack would otherwise raise. -/
theorem C4_container_roundtrip (payload : List Nat) (hL : payload.length ≤ 2 ^ 31) :
    parseHeader (writeClose 1 2 16000 payload)
      = Except.ok { nchannels := 1, sampwidth := 2, framerate := 44100,
                    nframes := payload.length / 2 } := by
  norm_num at hL
  simp [writeClose, parseHeader, parseChunks, be32, be16, be64, beNat, initState]
  omega

/-- Witness for C4: a four-byte payload parses back to two frames. -/
theorem C4_container_roundtrip_witness :
    parseHeader (writeClose 1 2 16000 [9, 9, 9, 9])
      = Except.ok { nchannels := 1, sampwidth := 2, framerate := 44100, nframes := 2 } :=
  C4_container_roundtrip [9, 9, 9, 9] (by norm_num)

end Aifc
